import Mathlib

set_option linter.unusedSectionVars false

/-!
Verification of the raycasting engine of devjoseruiz/raycasting-doom.

The Python sources are shallowly embedded over an arbitrary linear ordered
field `F` with a floor function.  Trigonometric functions and other
transcendental collaborators (`math.sin`, `math.cos`, `math.atan2`,
`math.hypot`) are passed as function parameters, so every definition is
executable; theorems about the real pipeline instantiate them with
`Real.sin`, `Real.cos`, etc.  Python's `ZeroDivisionError` (float division
by an exactly-zero denominator) is modelled by returning `none`.
-/

namespace Doom

variable {F : Type} [LinearOrderedField F] [FloorRing F]

/-- Python `int(x)` on a float: truncation toward zero. -/
def pyInt (x : F) : ℤ := if 0 ≤ x then ⌊x⌋ else ⌈x⌉

/-- Python `x % 1.0` on a float: the fractional part (sign of the divisor). -/
def pyMod1 (x : F) : F := x - ⌊x⌋

/-- Python `x % m` on floats (used for `self.angle %= math.tau`). -/
def pyMod (x m : F) : F := x - m * ⌊x / m⌋

/-- Python `a // b` on floats: floor division. -/
def pyFloorDiv (a b : F) : F := ⌊a / b⌋

/-! Constants from `src/settings.py`. -/

def WIDTH : ℕ := 1600
def HEIGHT : ℕ := 900
def HALF_WIDTH : ℕ := WIDTH / 2
def HALF_HEIGHT : ℕ := HEIGHT / 2
def PLAYER_SPEED : F := 4 / 1000
def PLAYER_ROT_SPEED : F := 5 / 100
def NUM_RAYS : ℕ := WIDTH / 2
def HALF_NUM_RAYS : ℕ := NUM_RAYS / 2
def MAX_DEPTH : ℕ := 30
def FOG_START : ℕ := 20
def FOG_END : ℕ := MAX_DEPTH
def SCALE : ℕ := WIDTH / NUM_RAYS

/-! The world map, from `src/map.py`.  `Map.get_map` turns the 2-D list
`mini_map` into a dictionary keyed by `(column, row)` holding every nonzero
(truthy) entry.  We model the resulting dictionary as the lookup function
`(ℤ × ℤ) → Option ℕ`; a `WorldMap` is any such lookup. -/

abbrev WorldMap : Type := ℤ × ℤ → Option ℕ

/-- Dictionary built by `Map.get_map` from a rectangular 2-D list:
`(i, j)` maps to `value = grid[j][i]` exactly when that value is nonzero. -/
def getMap (grid : List (List ℕ)) : WorldMap := fun p =>
  if 0 ≤ p.1 ∧ 0 ≤ p.2 then
    match (grid.getD p.2.toNat []).getD p.1.toNat 0 with
    | 0 => none
    | Nat.succ v => some (v + 1)
  else none

/-- The 3×3 grid whose border tiles all hold wall value `w` and whose
interior is empty. -/
def grid3 (w : ℕ) : List (List ℕ) := [[w, w, w], [w, 0, w], [w, w, w]]

/-- A world with a single wall of type 7 at tile `(0, 2)`. -/
def wallAt02 : WorldMap := fun p => if p = (0, 2) then some 7 else none

/-- A world with a single wall of type 7 at tile `(5, 5)`. -/
def wallAt55 : WorldMap := fun p => if p = (5, 5) then some 7 else none

/-! The grid-traversal loop of `RayCasting.ray_cast`
(`src/raycasting.py`, both the horizontal and the vertical scan share this
shape): check the tile containing `(x, y)`; on a wall, break with its
texture; otherwise advance by `(dx, dy)` and grow the depth, for at most
`MAX_DEPTH` iterations. -/

structure ScanState (F : Type) where
  tex : Option ℕ
  x : F
  y : F
  depth : F
  deriving Repr, DecidableEq

def scanLoop (map : WorldMap) (dx dy dd : F) : ℕ → F → F → F → ScanState F
  | 0, x, y, d => ⟨none, x, y, d⟩
  | n + 1, x, y, d =>
    match map (pyInt x, pyInt y) with
    | some t => ⟨some t, x, y, d⟩
    | none => scanLoop map dx dy dd n (x + dx) (y + dy) (d + dd)

/-- Horizontal-gridline scan (`ray_cast` lines 96–120), for a ray whose
`sin` and `cos` are `s` and `c`.  Returns the final loop state; a `none`
texture models `found_hor_wall = False`, i.e. `depth_hor = inf`. -/
def horScan (map : WorldMap) (ox oy s c : F) : ScanState F :=
  let y_map : ℤ := pyInt oy
  let y_hor : F := if 0 < s then (y_map : F) + 1 else (y_map : F) - 1 / 1000000
  let dy : F := if 0 < s then 1 else -1
  let depth_hor := (y_hor - oy) / s
  let x_hor := ox + depth_hor * c
  let delta_depth := dy / s
  let dx := delta_depth * c
  scanLoop map dx dy delta_depth MAX_DEPTH x_hor y_hor depth_hor

/-- Vertical-gridline scan (`ray_cast` lines 122–146). -/
def vertScan (map : WorldMap) (ox oy s c : F) : ScanState F :=
  let x_map : ℤ := pyInt ox
  let x_vert : F := if 0 < c then (x_map : F) + 1 else (x_map : F) - 1 / 1000000
  let dx : F := if 0 < c then 1 else -1
  let depth_vert := (x_vert - ox) / c
  let y_vert := oy + depth_vert * s
  let delta_depth := dx / c
  let dy := delta_depth * s
  scanLoop map dx dy delta_depth MAX_DEPTH x_vert y_vert depth_vert

/-- Depth/texture/offset selection (`ray_cast` lines 148–163).  A scan that
found no wall has depth `float("inf")` and texture `None`, so the Python
comparison `depth_vert < depth_hor` picks the found scan when exactly one
found a wall, and the horizontal branch when neither did — in which case
`texture is None` and the result is the no-hit entry, modelled as `none`
here.  On a hit, returns `(texture, uncorrected depth, offset)`. -/
def selectRay (s c : F) (hor vert : ScanState F) : Option (ℕ × F × F) :=
  match vert.tex, hor.tex with
  | some tv, some th =>
    if vert.depth < hor.depth then
      some (tv, vert.depth, if 0 < c then pyMod1 vert.y else 1 - pyMod1 vert.y)
    else
      some (th, hor.depth, if 0 < s then 1 - pyMod1 hor.x else pyMod1 hor.x)
  | some tv, none =>
      some (tv, vert.depth, if 0 < c then pyMod1 vert.y else 1 - pyMod1 vert.y)
  | none, some th =>
      some (th, hor.depth, if 0 < s then 1 - pyMod1 hor.x else pyMod1 hor.x)
  | none, none => none

/-- One per-ray entry of `self.ray_casting_result`: either the empty result
`(float("inf"), 0, None, 0)` or `(depth, proj_height, texture, offset)`. -/
inductive RayEntry (F : Type) where
  | noHit : RayEntry F
  | hit (depth proj_height : F) (texture : ℕ) (offset : F) : RayEntry F
  deriving Repr, DecidableEq

def hitDepth : RayEntry F → Option F
  | .noHit => none
  | .hit d _ _ _ => some d

def hitTex : RayEntry F → Option ℕ
  | .noHit => none
  | .hit _ _ t _ => some t

def hitOffset : RayEntry F → Option F
  | .noHit => none
  | .hit _ _ _ o => some o

/-- Fisheye correction and projection (`ray_cast` lines 158–172): `fish` is
`cos(player.angle - ray_angle)` and `sd` is `SCREEN_DIST`. -/
def finishRay (s c fish sd : F) (hor vert : ScanState F) : RayEntry F :=
  match selectRay s c hor vert with
  | none => .noHit
  | some (t, d, o) => .hit (d * fish) (sd / (d * fish + 1 / 10000)) t o

/-- One ray of `RayCasting.ray_cast`.  `sinF`/`cosF` stand for `math.sin`
and `math.cos`.  A ray whose `sin_a` or `cos_a` is exactly zero hits
Python's `ZeroDivisionError` at `depth_hor = (y_hor - oy) / sin_a` resp.
`depth_vert = (x_vert - ox) / cos_a`; that error is modelled as `none`. -/
def castRay (sinF cosF : F → F) (map : WorldMap) (ox oy angle ray_angle sd : F) :
    Option (RayEntry F) :=
  let s := sinF ray_angle
  let c := cosF ray_angle
  if s = 0 then none
  else if c = 0 then none
  else
    some (finishRay s c (cosF (angle - ray_angle)) sd
      (horScan map ox oy s c) (vertScan map ox oy s c))

/-- The uncorrected straight-line (radial) depth of a ray's nearest hit:
the `depth` local of `ray_cast` just before line 166 multiplies in the
fisheye factor.  `none` when the ray errors or records no hit. -/
def castRayRadial (sinF cosF : F → F) (map : WorldMap) (ox oy ray_angle : F) :
    Option F :=
  let s := sinF ray_angle
  let c := cosF ray_angle
  if s = 0 then none
  else if c = 0 then none
  else
    (selectRay s c (horScan map ox oy s c) (vertScan map ox oy s c)).map
      (fun r => r.2.1)

/-- The per-frame loop of `ray_cast`: one entry appended per ray, stepping
`ray_angle` by `DELTA_ANGLE` (`delta`) each iteration.  If any ray raises
`ZeroDivisionError` the frame aborts, modelled as `none`. -/
def rayCastAux (sinF cosF : F → F) (map : WorldMap) (ox oy angle delta sd : F) :
    ℕ → F → Option (List (RayEntry F))
  | 0, _ => some []
  | n + 1, ray_angle =>
    match castRay sinF cosF map ox oy angle ray_angle sd with
    | none => none
    | some e =>
      (rayCastAux sinF cosF map ox oy angle delta sd n (ray_angle + delta)).map
        (fun l => e :: l)

/-- `RayCasting.ray_cast`: `NUM_RAYS` rays starting from
`ray_angle = angle - HALF_FOV + 0.0001`. -/
def ray_cast (sinF cosF : F → F) (map : WorldMap)
    (ox oy angle half_fov delta sd : F) : Option (List (RayEntry F)) :=
  rayCastAux sinF cosF map ox oy angle delta sd NUM_RAYS
    (angle - half_fov + 1 / 10000)

/-- The `k`-th recorded entry of a ray-casting result. -/
def nthRay (r : Option (List (RayEntry F))) (k : ℕ) : Option (RayEntry F) :=
  r.bind (fun l => l.get? k)

/-- The fog decision of `RayCasting.get_objects_to_render` (lines 67–74):
for a wall column at distance `depth`, `none` means the fog block is
skipped and the column is left unmodified; otherwise the computed
`fog_factor` is returned. -/
def fogFactor (depth : F) : Option F :=
  if (FOG_START : F) < depth then
    some (min 1 ((depth - FOG_START) / ((FOG_END : F) - FOG_START)))
  else none

/-! `Player` (`src/player.py`). -/

/-- `Player.check_wall`: a position is free iff it is not a key of the
world map. -/
def check_wall (map : WorldMap) (x y : ℤ) : Bool := map (x, y) = none

/-- `Player.check_wall_collision`: per-axis acceptance; the y-check uses
the possibly already-updated x. -/
def check_wall_collision (map : WorldMap) (x y dx dy : F) : F × F :=
  let x' := if check_wall map (pyInt (x + dx)) (pyInt y) then x + dx else x
  let y' := if check_wall map (pyInt x') (pyInt (y + dy)) then y + dy else y
  (x', y')

/-- A sequence of collision-checked displacement calls, folded left to
right from a start position. -/
def runMoves (map : WorldMap) (moves : List (F × F)) (p : F × F) : F × F :=
  moves.foldl (fun q m => check_wall_collision map q.1 q.2 m.1 m.2) p

/-- The pressed-key state read by `Player.movement`. -/
structure Keys where
  w : Bool
  s : Bool
  a : Bool
  d : Bool
  left : Bool
  right : Bool
  deriving Repr, DecidableEq

/-- The net rotation applied by `Player.movement` before normalization:
`K_LEFT` subtracts and `K_RIGHT` adds `PLAYER_ROT_SPEED`. -/
def rotationDelta (ks : Keys) : F :=
  (if ks.left then -PLAYER_ROT_SPEED else 0) +
    (if ks.right then PLAYER_ROT_SPEED else 0)

/-- The accumulated `dx` of `Player.movement`'s WASD block
(`dx += speed_cos` for W, `-speed_cos` for S, `speed_sin` for A,
`-speed_sin` for D, starting from 0). -/
def wasdDX (ks : Keys) (speed_sin speed_cos : F) : F :=
  (((0 : F) + (if ks.w then speed_cos else 0)) +
      (if ks.s then -speed_cos else 0) + (if ks.a then speed_sin else 0)) +
    (if ks.d then -speed_sin else 0)

/-- The accumulated `dy` of `Player.movement`'s WASD block. -/
def wasdDY (ks : Keys) (speed_sin speed_cos : F) : F :=
  (((0 : F) + (if ks.w then speed_sin else 0)) +
      (if ks.s then -speed_sin else 0) + (if ks.a then -speed_cos else 0)) +
    (if ks.d then speed_cos else 0)

/-- `Player.movement`: WASD displacement scaled by
`PLAYER_SPEED * delta_time`, axis-separated collision, then rotation and
angle normalization by `math.tau` (passed as `tau`). -/
def movement (sinF cosF : F → F) (map : WorldMap) (dt : F) (ks : Keys)
    (tau : F) (st : F × F × F) : F × F × F :=
  let x := st.1
  let y := st.2.1
  let angle := st.2.2
  let sin_a := sinF angle
  let cos_a := cosF angle
  let speed := PLAYER_SPEED * dt
  let speed_sin := speed * sin_a
  let speed_cos := speed * cos_a
  let p := check_wall_collision map x y (wasdDX ks speed_sin speed_cos)
    (wasdDY ks speed_sin speed_cos)
  (p.1, p.2, pyMod (angle + rotationDelta ks) tau)

/-! `SpriteObject` (`src/sprite_object.py`).  `atan2F` stands for
`math.atan2` and `hypotF` for `math.hypot`; `piF` and `tauF` are the values
of `math.pi` and `math.tau`. -/

/-- The derived quantities computed by `SpriteObject.get_sprite` before its
visibility test: `(delta, screen_x, dist, norm_dist)`. -/
def spriteCalc (atan2F : F → F → F) (cosF : F → F) (hypotF : F → F → F)
    (piF tauF delta_angle px py pangle sx sy : F) : F × F × F × F :=
  let dx := sx - px
  let dy := sy - py
  let theta := atan2F dy dx
  let delta0 := theta - pangle
  let delta := if (0 < dx ∧ piF < pangle) ∨ (dx < 0 ∧ dy < 0) then
      delta0 + tauF
    else delta0
  let delta_rays := delta / delta_angle
  let screen_x := ((HALF_NUM_RAYS : F) + delta_rays) * (SCALE : F)
  let dist := hypotF dx dy
  (delta, screen_x, dist, dist * cosF delta)

/-- The draw item built by `SpriteObject.get_sprite_projection` and
appended to the render list: depth (`norm_dist`), scaled size
(`proj_width`, `proj_height`) and screen position. -/
def get_sprite_projection (sd norm_dist sprite_scale ratioWH screen_x
    height_shift : F) : F × F × F × F × F :=
  let proj := sd / norm_dist * sprite_scale
  let proj_width := proj * ratioWH
  let proj_height := proj
  let sprite_half_width := pyFloorDiv proj_width 2
  (norm_dist, proj_width, proj_height, screen_x - sprite_half_width,
    (HALF_HEIGHT : F) - pyFloorDiv proj_height 2 +
      proj_height * height_shift)

/-- `SpriteObject.get_sprite`: computes the projection quantities, then
appends a draw item iff
`-IMAGE_HALF_WIDTH < screen_x < WIDTH + IMAGE_HALF_WIDTH` and
`norm_dist > 1.0`, where `IMAGE_HALF_WIDTH = image_width // 2` is half the
source image's pixel width.  `none` models "no draw item appended". -/
def get_sprite (atan2F : F → F → F) (cosF : F → F) (hypotF : F → F → F)
    (piF tauF delta_angle px py pangle sx sy : F) (image_width : ℕ)
    (sd sprite_scale ratioWH height_shift : F) :
    Option (F × F × F × F × F) :=
  let q := spriteCalc atan2F cosF hypotF piF tauF delta_angle px py pangle sx sy
  let screen_x := q.2.1
  let norm_dist := q.2.2.2
  if -((image_width / 2 : ℕ) : F) < screen_x ∧
      screen_x < (WIDTH : F) + ((image_width / 2 : ℕ) : F) ∧
      1 < norm_dist then
    some (get_sprite_projection sd norm_dist sprite_scale ratioWH screen_x
      height_shift)
  else none

/-! ### Generic lemmas about the embedded operations -/

lemma pyInt_of_nonneg {x : F} (h : 0 ≤ x) : pyInt x = ⌊x⌋ := if_pos h

lemma pyInt_intCast (n : ℤ) : pyInt ((n : F)) = n := by
  unfold pyInt
  rcases le_or_lt 0 ((n : F)) with h | h
  · rw [if_pos h, Int.floor_intCast]
  · rw [if_neg (not_le.mpr h), Int.ceil_intCast]

lemma pyInt_lt_of_lt {x : F} {n : ℤ} (hn : 0 < n) (h : x < (n : F)) :
    pyInt x < n := by
  unfold pyInt
  rcases le_or_lt 0 x with h0 | h0
  · rw [if_pos h0]
    exact Int.floor_lt.mpr h
  · rw [if_neg (not_le.mpr h0)]
    calc (⌈x⌉ : ℤ) ≤ 0 := Int.ceil_le.mpr (by simpa using h0.le)
    _ < n := hn

lemma pyInt_le_of_le {x : F} {n : ℤ} (hn : 0 ≤ n) (h : x ≤ (n : F)) :
    pyInt x ≤ n := by
  unfold pyInt
  rcases le_or_lt 0 x with h0 | h0
  · rw [if_pos h0]
    have := Int.floor_le_floor h
    rwa [Int.floor_intCast] at this
  · rw [if_neg (not_le.mpr h0)]
    exact le_trans (Int.ceil_le.mpr (by simpa using h0.le)) hn

lemma pyMod1_eq_fract (x : F) : pyMod1 x = Int.fract x := rfl

lemma pyMod1_nonneg (x : F) : 0 ≤ pyMod1 x := Int.fract_nonneg x

lemma pyMod1_lt_one (x : F) : pyMod1 x < 1 := Int.fract_lt_one x

lemma check_wall_iff {map : WorldMap} {x y : ℤ} :
    check_wall map x y = true ↔ map (x, y) = none := by
  simp [check_wall]

lemma scanLoop_zero (map : WorldMap) (dx dy dd x y d : F) :
    scanLoop map dx dy dd 0 x y d = ⟨none, x, y, d⟩ := rfl

lemma scanLoop_found {map : WorldMap} {x y : F} {t : ℕ}
    (h : map (pyInt x, pyInt y) = some t) (dx dy dd : F) (n : ℕ) (d : F) :
    scanLoop map dx dy dd (n + 1) x y d = ⟨some t, x, y, d⟩ := by
  simp [scanLoop, h]

lemma scanLoop_miss {map : WorldMap} {x y : F}
    (h : map (pyInt x, pyInt y) = none) (dx dy dd : F) (n : ℕ) (d : F) :
    scanLoop map dx dy dd (n + 1) x y d =
      scanLoop map dx dy dd n (x + dx) (y + dy) (d + dd) := by
  simp [scanLoop, h]

/-- If every tile probed in `n` steps is empty, the scan exhausts its fuel
with no texture and the fully advanced coordinates. -/
lemma scanLoop_none_of {map : WorldMap} {dx dy dd : F} {n : ℕ} {x y d : F}
    (h : ∀ i : ℕ, i < n → map (pyInt (x + i * dx), pyInt (y + i * dy)) = none) :
    scanLoop map dx dy dd n x y d = ⟨none, x + n * dx, y + n * dy, d + n * dd⟩ := by
  induction n generalizing x y d with
  | zero => simp [scanLoop]
  | succ n ih =>
    have h0 : map (pyInt x, pyInt y) = none := by
      have := h 0 (Nat.succ_pos n)
      simpa using this
    rw [scanLoop_miss h0]
    rw [ih (fun i hi => by
      have := h (i + 1) (by omega)
      have harg : x + (i + 1 : ℕ) * dx = x + dx + i * dx := by push_cast; ring
      have harg2 : y + (i + 1 : ℕ) * dy = y + dy + i * dy := by push_cast; ring
      rw [harg, harg2] at this
      exact this)]
    have e1 : x + dx + (n : F) * dx = x + (n + 1 : ℕ) * dx := by push_cast; ring
    have e2 : y + dy + (n : F) * dy = y + (n + 1 : ℕ) * dy := by push_cast; ring
    have e3 : d + dd + (n : F) * dd = d + (n + 1 : ℕ) * dd := by push_cast; ring
    rw [e1, e2, e3]

/-- A ray completes (no `ZeroDivisionError`) iff neither trig denominator
is exactly zero. -/
lemma castRay_isSome_iff {sinF cosF : F → F} {map : WorldMap}
    {ox oy angle ray_angle sd : F} :
    (castRay sinF cosF map ox oy angle ray_angle sd).isSome ↔
      sinF ray_angle ≠ 0 ∧ cosF ray_angle ≠ 0 := by
  unfold castRay
  by_cases hs : sinF ray_angle = 0
  · simp [hs]
  · by_cases hc : cosF ray_angle = 0 <;> simp [hs, hc]

/-- Every offset produced by the selection step lies in `[0, 1]`. -/
lemma selectRay_offset_mem {s c : F} {hor vert : ScanState F} {t : ℕ}
    {d o : F} (h : selectRay s c hor vert = some (t, d, o)) :
    0 ≤ o ∧ o ≤ 1 := by
  have bounds : ∀ z : F, 0 ≤ pyMod1 z ∧ pyMod1 z ≤ 1 := fun z =>
    ⟨pyMod1_nonneg z, (pyMod1_lt_one z).le⟩
  have bounds' : ∀ z : F, 0 ≤ 1 - pyMod1 z ∧ 1 - pyMod1 z ≤ 1 := fun z =>
    ⟨by linarith [(bounds z).2], by linarith [(bounds z).1]⟩
  unfold selectRay at h
  rcases hv : vert.tex with _ | tv <;> rcases hh : hor.tex with _ | th <;>
    rw [hv, hh] at h
  · exact absurd h (by simp)
  · simp only [Option.some.injEq, Prod.mk.injEq] at h
    rcases h with ⟨-, -, ho⟩
    split_ifs at ho <;> rw [← ho]
    · exact bounds' _
    · exact bounds _
  · simp only [Option.some.injEq, Prod.mk.injEq] at h
    rcases h with ⟨-, -, ho⟩
    split_ifs at ho <;> rw [← ho]
    · exact bounds _
    · exact bounds' _
  · split_ifs at h <;> simp only [Option.some.injEq, Prod.mk.injEq] at h <;>
      rcases h with ⟨-, -, ho⟩ <;> rw [← ho] <;>
      first
      | exact bounds _
      | exact bounds' _

/-- A completed frame records exactly one entry per ray. -/
lemma rayCastAux_length {sinF cosF : F → F} {map : WorldMap}
    {ox oy angle delta sd : F} {n : ℕ} {a : F} {l : List (RayEntry F)}
    (h : rayCastAux sinF cosF map ox oy angle delta sd n a = some l) :
    l.length = n := by
  induction n generalizing a l with
  | zero =>
    unfold rayCastAux at h
    simp only [Option.some.injEq] at h
    rw [← h]
    rfl
  | succ n ih =>
    unfold rayCastAux at h
    rcases hc : castRay sinF cosF map ox oy angle a sd with _ | e <;> rw [hc] at h
    · exact absurd h (by simp)
    · rcases hrest : rayCastAux sinF cosF map ox oy angle delta sd n (a + delta)
        with _ | l' <;> rw [hrest] at h
      · exact absurd h (by simp)
      · simp only [Option.map_some', Option.some.injEq] at h
        rw [← h, List.length_cons, ih hrest]

/-- The `k`-th recorded entry of a completed frame is the result of casting
the `k`-th ray, whose angle is the start angle advanced `k` times. -/
lemma rayCastAux_get? {sinF cosF : F → F} {map : WorldMap}
    {ox oy angle delta sd : F} {n : ℕ} {a : F} {l : List (RayEntry F)}
    (h : rayCastAux sinF cosF map ox oy angle delta sd n a = some l)
    (k : ℕ) (hk : k < n) :
    l.get? k = castRay sinF cosF map ox oy angle (a + k * delta) sd := by
  induction n generalizing a l k with
  | zero => omega
  | succ n ih =>
    unfold rayCastAux at h
    rcases hc : castRay sinF cosF map ox oy angle a sd with _ | e <;> rw [hc] at h
    · exact absurd h (by simp)
    · rcases hrest : rayCastAux sinF cosF map ox oy angle delta sd n (a + delta)
        with _ | l' <;> rw [hrest] at h
      · exact absurd h (by simp)
      · simp only [Option.map_some', Option.some.injEq] at h
        rw [← h]
        rcases k with _ | k
        · simpa using hc.symm
        · have := ih hrest k (by omega)
          have harg : a + delta + (k : F) * delta = a + (k + 1 : ℕ) * delta := by
            push_cast; ring
          rw [harg] at this
          simpa using this

/-- A frame completes iff every one of its rays completes. -/
lemma rayCastAux_isSome {sinF cosF : F → F} {map : WorldMap}
    {ox oy angle delta sd : F} {n : ℕ} {a : F}
    (h : ∀ k : ℕ, k < n →
      (castRay sinF cosF map ox oy angle (a + k * delta) sd).isSome) :
    (rayCastAux sinF cosF map ox oy angle delta sd n a).isSome := by
  induction n generalizing a with
  | zero => simp [rayCastAux]
  | succ n ih =>
    have h0 : (castRay sinF cosF map ox oy angle a sd).isSome := by
      have := h 0 (Nat.succ_pos n)
      simpa using this
    rcases Option.isSome_iff_exists.mp h0 with ⟨e, he⟩
    have hrest : (rayCastAux sinF cosF map ox oy angle delta sd n (a + delta)).isSome := by
      apply ih
      intro k hk
      have := h (k + 1) (by omega)
      have harg : a + (k + 1 : ℕ) * delta = a + delta + (k : F) * delta := by
        push_cast; ring
      rw [harg] at this
      exact this
    rcases Option.isSome_iff_exists.mp hrest with ⟨l', hl'⟩
    unfold rayCastAux
    rw [he, hl']
    rfl

lemma selectRay_none {s c : F} {hor vert : ScanState F}
    (hh : hor.tex = none) (hv : vert.tex = none) :
    selectRay s c hor vert = none := by
  unfold selectRay
  rw [hh, hv]

lemma selectRay_vert_only {s c : F} {hor vert : ScanState F} {tv : ℕ}
    (hh : hor.tex = none) (hv : vert.tex = some tv) :
    selectRay s c hor vert =
      some (tv, vert.depth,
        if 0 < c then pyMod1 vert.y else 1 - pyMod1 vert.y) := by
  unfold selectRay
  rw [hh, hv]

lemma selectRay_hor_only {s c : F} {hor vert : ScanState F} {th : ℕ}
    (hh : hor.tex = some th) (hv : vert.tex = none) :
    selectRay s c hor vert =
      some (th, hor.depth,
        if 0 < s then 1 - pyMod1 hor.x else pyMod1 hor.x) := by
  unfold selectRay
  rw [hh, hv]

/-! ### Evaluating the center ray in the 3×3 bordered grid

Viewer at `(1.5, 1.5)`, angle `0`.  The center ray (index `NUM_RAYS / 2`)
has `ray_angle = 0 - HALF_FOV + 0.0001 + 400 * DELTA_ANGLE = 0.0001`. -/

lemma sin_theta_pos : 0 < Real.sin (1 / 10000) := by
  apply Real.sin_pos_of_pos_of_lt_pi (by norm_num)
  have := Real.pi_gt_three
  linarith

lemma cos_theta_pos : 0 < Real.cos (1 / 10000) := by
  apply Real.cos_pos_of_mem_Ioo
  constructor
  · have := Real.pi_gt_three
    linarith
  · have := Real.pi_gt_three
    linarith

lemma sin_theta_small : Real.sin (1 / 10000) < 1 / 10000 :=
  Real.sin_lt (by norm_num)

lemma cos_theta_large : 1 / 2 ≤ Real.cos (1 / 10000) := by
  have h1 : Real.cos (Real.pi / 3) ≤ Real.cos (1 / 10000) := by
    apply Real.cos_le_cos_of_nonneg_of_le_pi (by norm_num)
    · linarith [Real.pi_pos]
    · linarith [Real.pi_gt_three]
  rwa [Real.cos_pi_div_three] at h1

lemma grid3_none_right {w : ℕ} {a b : ℤ} (ha : 3 ≤ a) :
    getMap (grid3 w) (a, b) = none := by
  unfold getMap grid3
  by_cases hb0 : (0 : ℤ) ≤ b
  · rw [if_pos ⟨by omega, hb0⟩]
    have hrow : (([[w, w, w], [w, 0, w], [w, w, w]] :
        List (List ℕ)).getD b.toNat []).length ≤ 3 := by
      rcases hbt : b.toNat with _ | n
      · simp
      rcases n with _ | n
      · simp
      rcases n with _ | n
      · simp
      · rw [List.getD_eq_default]
        · simp
        · simp
    rw [List.getD_eq_default _ _ (le_trans hrow (by omega))]
  · rw [if_neg (by simp [hb0])]

lemma grid3_none_up {w : ℕ} {a b : ℤ} (hb : 3 ≤ b) :
    getMap (grid3 w) (a, b) = none := by
  unfold getMap grid3
  by_cases ha0 : (0 : ℤ) ≤ a
  · rw [if_pos ⟨ha0, by omega⟩]
    rw [List.getD_eq_default _ _ (show ([[w, w, w], [w, 0, w], [w, w, w]] :
      List (List ℕ)).length ≤ b.toNat by simp; omega)]
    rfl
  · rw [if_neg (by simp [ha0])]

lemma grid3_21 {w : ℕ} (hw : w ≠ 0) : getMap (grid3 w) (2, 1) = some w := by
  unfold getMap grid3
  rw [if_pos (by constructor <;> norm_num)]
  rcases w with _ | v
  · exact absurd rfl hw
  · rfl

lemma pyInt_three_halves : pyInt ((3 : ℝ) / 2) = 1 := by
  rw [pyInt_of_nonneg (by norm_num), Int.floor_eq_iff]
  norm_num

/-- The horizontal scan of the center ray escapes the 3×3 grid without a
hit: its first crossing is at `y = 2` but far to the right (the ray is
almost parallel to the x-axis), and every later crossing has `y ≥ 3`. -/
lemma center_hor {w : ℕ} :
    (horScan (getMap (grid3 w)) ((3 : ℝ) / 2) (3 / 2)
      (Real.sin (1 / 10000)) (Real.cos (1 / 10000))).tex = none := by
  have hs := sin_theta_pos
  have hc := cos_theta_pos
  have hs4 := sin_theta_small
  have hc2 := cos_theta_large
  simp only [horScan]
  rw [pyInt_three_halves, if_pos hs, if_pos hs]
  rw [scanLoop_none_of]
  · intro i hi
    rcases i with _ | n
    · -- first crossing: `(x₀, 2)` with `x₀ = 3/2 + cos/(2 sin) ≥ 3`
      apply grid3_none_right
      have hx0 : (3 : ℝ) ≤ (3 : ℝ) / 2 + ((((1 : ℤ) : ℝ) + 1 - 3 / 2) /
          Real.sin (1 / 10000)) * Real.cos (1 / 10000) +
          ((0 : ℕ) : ℝ) * (1 / Real.sin (1 / 10000) * Real.cos (1 / 10000)) := by
        have he : (3 : ℝ) / 2 + ((((1 : ℤ) : ℝ) + 1 - 3 / 2) /
            Real.sin (1 / 10000)) * Real.cos (1 / 10000) +
            ((0 : ℕ) : ℝ) * (1 / Real.sin (1 / 10000) * Real.cos (1 / 10000)) =
            3 / 2 + Real.cos (1 / 10000) / (2 * Real.sin (1 / 10000)) := by
          push_cast
          ring
        rw [he]
        have h3 : (3 : ℝ) * Real.sin (1 / 10000) ≤ Real.cos (1 / 10000) := by
          nlinarith
        have h4 : (3 : ℝ) / 2 ≤ Real.cos (1 / 10000) /
            (2 * Real.sin (1 / 10000)) := by
          rw [le_div_iff₀ (by positivity)]
          nlinarith
        linarith
      rw [pyInt_of_nonneg (by linarith)]
      exact Int.le_floor.mpr (by push_cast; push_cast at hx0; linarith)
    · -- later crossings: `y = 2 + (n+1) ≥ 3`
      apply grid3_none_up
      have harg : ((1 : ℤ) : ℝ) + 1 + ((n + 1 : ℕ) : ℝ) * 1 =
          (((2 + (n + 1) : ℕ) : ℤ) : ℝ) := by push_cast; ring
      rw [harg, pyInt_intCast]
      omega

/-- The vertical scan of the center ray hits the border tile `(2, 1)` at
its very first crossing `x = 2`, at radial depth `1 / (2 cos 0.0001)`. -/
lemma center_vert {w : ℕ} (hw : w ≠ 0) :
    vertScan (getMap (grid3 w)) ((3 : ℝ) / 2) (3 / 2)
      (Real.sin (1 / 10000)) (Real.cos (1 / 10000)) =
      ⟨some w, ((1 : ℤ) : ℝ) + 1,
        3 / 2 + (((1 : ℤ) : ℝ) + 1 - 3 / 2) / Real.cos (1 / 10000) *
          Real.sin (1 / 10000),
        (((1 : ℤ) : ℝ) + 1 - 3 / 2) / Real.cos (1 / 10000)⟩ := by
  have hs := sin_theta_pos
  have hc := cos_theta_pos
  have hs4 := sin_theta_small
  have hc2 := cos_theta_large
  simp only [vertScan]
  rw [pyInt_three_halves, if_pos hc, if_pos hc]
  rw [show MAX_DEPTH = 29 + 1 by norm_num [MAX_DEPTH]]
  apply scanLoop_found
  have hxv : pyInt (((1 : ℤ) : ℝ) + 1) = 2 := by
    rw [show ((1 : ℤ) : ℝ) + 1 = ((2 : ℤ) : ℝ) by push_cast; ring, pyInt_intCast]
  have hyv : pyInt ((3 : ℝ) / 2 + (((1 : ℤ) : ℝ) + 1 - 3 / 2) /
      Real.cos (1 / 10000) * Real.sin (1 / 10000)) = 1 := by
    have hval : (3 : ℝ) / 2 + (((1 : ℤ) : ℝ) + 1 - 3 / 2) /
        Real.cos (1 / 10000) * Real.sin (1 / 10000) =
        3 / 2 + Real.sin (1 / 10000) / (2 * Real.cos (1 / 10000)) := by
      push_cast
      ring
    rw [hval, pyInt_of_nonneg (by positivity), Int.floor_eq_iff]
    have h0 : (0 : ℝ) ≤ Real.sin (1 / 10000) / (2 * Real.cos (1 / 10000)) := by
      positivity
    have hlt : Real.sin (1 / 10000) / (2 * Real.cos (1 / 10000)) < 1 / 2 := by
      rw [div_lt_iff₀ (by positivity)]
      nlinarith
    constructor
    · push_cast
      linarith
    · push_cast
      linarith
  rw [hxv, hyv]
  exact grid3_21 hw

/-- Full evaluation of the center ray in the C1 scenario: the vertical hit
wins, the fisheye factor `cos(0 - 0.0001)` cancels the radial stretch
`1 / cos(0.0001)`, and the corrected depth is exactly `1/2`. -/
lemma castRay_center {w : ℕ} (hw : w ≠ 0) (sd : ℝ) :
    castRay Real.sin Real.cos (getMap (grid3 w)) (3 / 2) (3 / 2) 0
      (1 / 10000) sd =
      some (RayEntry.hit (1 / 2) (sd / (1 / 2 + 1 / 10000)) w
        (1 / 2 + Real.sin (1 / 10000) / (2 * Real.cos (1 / 10000)))) := by
  have hs := sin_theta_pos
  have hc := cos_theta_pos
  have hs4 := sin_theta_small
  have hc2 := cos_theta_large
  simp only [castRay]
  rw [if_neg hs.ne', if_neg hc.ne']
  simp only [finishRay]
  rw [selectRay_vert_only center_hor (by rw [center_vert hw])]
  rw [if_pos hc]
  rw [center_vert hw]
  simp only [Option.some.injEq]
  have hfish : Real.cos ((0 : ℝ) - 1 / 10000) = Real.cos (1 / 10000) := by
    rw [show (0 : ℝ) - 1 / 10000 = -(1 / 10000) by ring, Real.cos_neg]
  have hdepth : ((((1 : ℤ) : ℝ) + 1 - 3 / 2) / Real.cos (1 / 10000)) *
      Real.cos ((0 : ℝ) - 1 / 10000) = 1 / 2 := by
    rw [hfish]
    push_cast
    field_simp
    ring
  have hoff : pyMod1 ((3 : ℝ) / 2 + (((1 : ℤ) : ℝ) + 1 - 3 / 2) /
      Real.cos (1 / 10000) * Real.sin (1 / 10000)) =
      1 / 2 + Real.sin (1 / 10000) / (2 * Real.cos (1 / 10000)) := by
    unfold pyMod1
    have hval : (3 : ℝ) / 2 + (((1 : ℤ) : ℝ) + 1 - 3 / 2) /
        Real.cos (1 / 10000) * Real.sin (1 / 10000) =
        3 / 2 + Real.sin (1 / 10000) / (2 * Real.cos (1 / 10000)) := by
      push_cast
      ring
    have hfl : ⌊(3 : ℝ) / 2 + (((1 : ℤ) : ℝ) + 1 - 3 / 2) /
        Real.cos (1 / 10000) * Real.sin (1 / 10000)⌋ = 1 := by
      rw [hval, Int.floor_eq_iff]
      have h0 : (0 : ℝ) ≤ Real.sin (1 / 10000) / (2 * Real.cos (1 / 10000)) := by
        positivity
      have hlt : Real.sin (1 / 10000) / (2 * Real.cos (1 / 10000)) < 1 / 2 := by
        rw [div_lt_iff₀ (by positivity)]
        nlinarith
      constructor
      · push_cast
        linarith
      · push_cast
        linarith
    rw [hfl, hval]
    push_cast
    ring
  rw [hdepth, hoff]

/-- In the C1 scenario every one of the 800 rays has nonzero trig
denominators: the ray angles `0.0001 + (k - 400) * pi/2400` for
`k < 800` all lie in `(-pi/2, pi/2)` and none of them is `0`. -/
lemma center_rays_ok (k : ℕ) (hk : k < NUM_RAYS) :
    Real.sin ((0 : ℝ) - Real.pi / 3 / 2 + 1 / 10000 +
      (k : ℝ) * (Real.pi / 3 / 800)) ≠ 0 ∧
    Real.cos ((0 : ℝ) - Real.pi / 3 / 2 + 1 / 10000 +
      (k : ℝ) * (Real.pi / 3 / 800)) ≠ 0 := by
  have hk8 : (k : ℝ) ≤ 799 := by
    have hk' : k ≤ 799 := by
      have : k < 800 := by simpa [NUM_RAYS, WIDTH] using hk
      omega
    exact_mod_cast hk'
  have hk0 : (0 : ℝ) ≤ (k : ℝ) := Nat.cast_nonneg k
  have harg : (0 : ℝ) - Real.pi / 3 / 2 + 1 / 10000 +
      (k : ℝ) * (Real.pi / 3 / 800) =
      1 / 10000 + ((k : ℝ) - 400) * (Real.pi / 2400) := by ring
  rw [harg]
  have hpi := Real.pi_gt_three
  have hpi0 := Real.pi_pos
  have hub : 1 / 10000 + ((k : ℝ) - 400) * (Real.pi / 2400) < Real.pi / 2 := by
    have h1 : ((k : ℝ) - 400) * (Real.pi / 2400) ≤ 399 * (Real.pi / 2400) :=
      mul_le_mul_of_nonneg_right (by linarith) (by positivity)
    linarith
  have hlb : -(Real.pi / 2) < 1 / 10000 + ((k : ℝ) - 400) * (Real.pi / 2400) := by
    have h2 : (-400 : ℝ) * (Real.pi / 2400) ≤ ((k : ℝ) - 400) * (Real.pi / 2400) :=
      mul_le_mul_of_nonneg_right (by linarith) (by positivity)
    linarith
  constructor
  · rcases lt_or_le k 400 with h4 | h4
    · have hk399 : (k : ℝ) ≤ 399 := by
        have : k ≤ 399 := by omega
        exact_mod_cast this
      have hneg : 1 / 10000 + ((k : ℝ) - 400) * (Real.pi / 2400) < 0 := by
        have h3 : ((k : ℝ) - 400) * (Real.pi / 2400) ≤ (-1) * (Real.pi / 2400) :=
          mul_le_mul_of_nonneg_right (by linarith) (by positivity)
        linarith
      exact (Real.sin_neg_of_neg_of_neg_pi_lt hneg (by linarith)).ne
    · have hk400 : (400 : ℝ) ≤ (k : ℝ) := by exact_mod_cast h4
      have hpos : 0 < 1 / 10000 + ((k : ℝ) - 400) * (Real.pi / 2400) := by
        have h5 : 0 ≤ ((k : ℝ) - 400) * (Real.pi / 2400) :=
          mul_nonneg (by linarith) (by positivity)
        linarith
      exact (Real.sin_pos_of_pos_of_lt_pi hpos (by linarith)).ne'
  · exact (Real.cos_pos_of_mem_Ioo ⟨hlb, hub⟩).ne'

/-- C1: for the 3x3 all-wall-border grid with empty interior, viewer at
(1.5, 1.5) with angle 0, `ray_cast` records for the center ray (index
`NUM_RAYS / 2`, whose ray angle is `0 - HALF_FOV + 0.0001 +
400 * DELTA_ANGLE = 0.0001`) a hit whose fisheye-corrected depth is
exactly `1/2` and whose wall-type ID is the border value `w`. -/
theorem C1_center_ray {w : ℕ} (hw : w ≠ 0) :
    (nthRay (ray_cast Real.sin Real.cos (getMap (grid3 w)) (3 / 2) (3 / 2) 0
        (Real.pi / 3 / 2) (Real.pi / 3 / 800) (800 / Real.tan (Real.pi / 3 / 2)))
        (NUM_RAYS / 2)).bind hitDepth = some (1 / 2) ∧
    (nthRay (ray_cast Real.sin Real.cos (getMap (grid3 w)) (3 / 2) (3 / 2) 0
        (Real.pi / 3 / 2) (Real.pi / 3 / 800) (800 / Real.tan (Real.pi / 3 / 2)))
        (NUM_RAYS / 2)).bind hitTex = some w := by
  have hsome : (ray_cast Real.sin Real.cos (getMap (grid3 w)) (3 / 2) (3 / 2) 0
      (Real.pi / 3 / 2) (Real.pi / 3 / 800)
      (800 / Real.tan (Real.pi / 3 / 2))).isSome := by
    unfold ray_cast
    apply rayCastAux_isSome
    intro k hk
    rw [castRay_isSome_iff]
    exact center_rays_ok k hk
  rcases Option.isSome_iff_exists.mp hsome with ⟨l, hl⟩
  have hget : l.get? (NUM_RAYS / 2) =
      castRay Real.sin Real.cos (getMap (grid3 w)) (3 / 2) (3 / 2) 0
        ((0 : ℝ) - Real.pi / 3 / 2 + 1 / 10000 +
          ((NUM_RAYS / 2 : ℕ) : ℝ) * (Real.pi / 3 / 800))
        (800 / Real.tan (Real.pi / 3 / 2)) := by
    unfold ray_cast at hl
    exact rayCastAux_get? hl (NUM_RAYS / 2) (by norm_num [NUM_RAYS, WIDTH])
  have hcast : ((NUM_RAYS / 2 : ℕ) : ℝ) = 400 := by norm_num [NUM_RAYS, WIDTH]
  rw [hcast] at hget
  have hang : (0 : ℝ) - Real.pi / 3 / 2 + 1 / 10000 +
      (400 : ℝ) * (Real.pi / 3 / 800) = 1 / 10000 := by ring
  rw [hang] at hget
  rw [castRay_center hw] at hget
  rw [hl]
  unfold nthRay
  simp only [Option.bind]
  rw [hget]
  constructor <;> rfl

/-- Witness for C1 at the concrete border value 15 (the value used by the
game's own map border). -/
theorem C1_center_ray_witness :
    (nthRay (ray_cast Real.sin Real.cos (getMap (grid3 15)) (3 / 2) (3 / 2) 0
        (Real.pi / 3 / 2) (Real.pi / 3 / 800) (800 / Real.tan (Real.pi / 3 / 2)))
        (NUM_RAYS / 2)).bind hitDepth = some (1 / 2) ∧
    (nthRay (ray_cast Real.sin Real.cos (getMap (grid3 15)) (3 / 2) (3 / 2) 0
        (Real.pi / 3 / 2) (Real.pi / 3 / 800) (800 / Real.tan (Real.pi / 3 / 2)))
        (NUM_RAYS / 2)).bind hitTex = some 15 :=
  C1_center_ray (by norm_num)

/-- One collision-checked move keeps the player off wall tiles. -/
lemma check_wall_collision_free {map : WorldMap} {x y : F}
    (h : map (pyInt x, pyInt y) = none) (dx dy : F) :
    map (pyInt (check_wall_collision map x y dx dy).1,
      pyInt (check_wall_collision map x y dx dy).2) = none := by
  unfold check_wall_collision
  by_cases h1 : check_wall map (pyInt (x + dx)) (pyInt y) = true
  · have hx : map (pyInt (x + dx), pyInt y) = none := check_wall_iff.mp h1
    simp only [h1, if_true]
    by_cases h2 : check_wall map (pyInt (x + dx)) (pyInt (y + dy)) = true
    · simpa [h2] using check_wall_iff.mp h2
    · simp only [Bool.not_eq_true] at h2
      simpa [h2] using hx
  · simp only [Bool.not_eq_true] at h1
    simp only [h1, Bool.false_eq_true, if_false]
    by_cases h2 : check_wall map (pyInt x) (pyInt (y + dy)) = true
    · simpa [h2] using check_wall_iff.mp h2
    · simp only [Bool.not_eq_true] at h2
      simpa [h2] using h

/-- The collision invariant propagates through any sequence of moves. -/
lemma runMoves_free {map : WorldMap} (moves : List (F × F)) {p : F × F}
    (h : map (pyInt p.1, pyInt p.2) = none) :
    map (pyInt (runMoves map moves p).1, pyInt (runMoves map moves p).2) = none := by
  induction moves generalizing p with
  | nil => exact h
  | cons m ms ih =>
    have step := check_wall_collision_free h m.1 m.2
    have : runMoves map (m :: ms) p =
        runMoves map ms (check_wall_collision map p.1 p.2 m.1 m.2) := rfl
    rw [this]
    exact ih step

/-! ### Claims C3, C4, C5: zero trig denominators and the fisheye factor -/

/-- A frame whose per-ray results are all the same entry (used to exhibit
concrete completed frames). -/
lemma rayCastAux_const {sinF cosF : F → F} {map : WorldMap}
    {ox oy angle sd : F} {e : RayEntry F}
    (hconst : ∀ b : F, castRay sinF cosF map ox oy angle b sd = some e)
    (delta : F) (n : ℕ) (a : F) :
    rayCastAux sinF cosF map ox oy angle delta sd n a =
      some (List.replicate n e) := by
  induction n generalizing a with
  | zero => rfl
  | succ n ih =>
    unfold rayCastAux
    rw [hconst a, ih (a + delta)]
    rfl

/-- C3 (counterexample): at viewer angle `HALF_FOV - 0.0001` the first
ray's angle is exactly `0`, its `sin` is exactly zero, and the ray raises
`ZeroDivisionError` (modelled as `none`): no near-zero substitute exists in
the code. -/
theorem C3_zero_denominator_cex :
    (Real.pi / 3 / 2 - 1 / 10000) - Real.pi / 3 / 2 + 1 / 10000 = 0 ∧
    castRay Real.sin Real.cos (getMap (grid3 15)) (3 / 2) (3 / 2)
      (Real.pi / 3 / 2 - 1 / 10000) 0 (800 / Real.tan (Real.pi / 3 / 2)) =
      none := by
  constructor
  · ring
  · simp [castRay, Real.sin_zero]

/-- C3 (amended): the code performs no epsilon substitution; a ray
completes without a division-by-zero error precisely when both `sin` and
`cos` of its ray angle are nonzero. -/
theorem C3_no_substitution {sinF cosF : F → F} {map : WorldMap}
    {ox oy angle ray_angle sd : F} :
    (castRay sinF cosF map ox oy angle ray_angle sd).isSome ↔
      sinF ray_angle ≠ 0 ∧ cosF ray_angle ≠ 0 :=
  castRay_isSome_iff

/-- C4 (counterexample): at viewer angle `HALF_FOV - 0.0001` the whole
frame aborts with `ZeroDivisionError` on its first ray, so no list of
`NUM_RAYS` entries is produced. -/
theorem C4_frame_abort_cex :
    ray_cast Real.sin Real.cos (fun _ => none) ((3 : ℝ) / 2) (3 / 2)
      (Real.pi / 3 / 2 - 1 / 10000) (Real.pi / 3 / 2) (Real.pi / 3 / 800)
      (800 / Real.tan (Real.pi / 3 / 2)) = none := by
  unfold ray_cast
  rw [show NUM_RAYS = 799 + 1 by norm_num [NUM_RAYS, WIDTH]]
  have h0 : castRay Real.sin Real.cos (fun _ => none) ((3 : ℝ) / 2) (3 / 2)
      (Real.pi / 3 / 2 - 1 / 10000)
      ((Real.pi / 3 / 2 - 1 / 10000) - Real.pi / 3 / 2 + 1 / 10000)
      (800 / Real.tan (Real.pi / 3 / 2)) = none := by
    rw [show (Real.pi / 3 / 2 - 1 / 10000) - Real.pi / 3 / 2 + 1 / 10000 =
      (0 : ℝ) by ring]
    simp [castRay, Real.sin_zero]
  unfold rayCastAux
  rw [h0]

/-- C4 (amended): whenever `ray_cast` completes (no ray has a zero trig
denominator), it records exactly `NUM_RAYS` entries, and a ray whose
horizontal and vertical scans both failed within `MAX_DEPTH` steps gets
the empty entry `(inf, 0, None, 0)` while the remaining rays still get
theirs. -/
theorem C4_entry_per_ray {sinF cosF : F → F} {map : WorldMap}
    {ox oy angle half_fov delta sd : F} {l : List (RayEntry F)}
    (h : ray_cast sinF cosF map ox oy angle half_fov delta sd = some l)
    (k : ℕ) (hk : k < NUM_RAYS)
    (hhor : (horScan map ox oy
      (sinF (angle - half_fov + 1 / 10000 + (k : F) * delta))
      (cosF (angle - half_fov + 1 / 10000 + (k : F) * delta))).tex = none)
    (hvert : (vertScan map ox oy
      (sinF (angle - half_fov + 1 / 10000 + (k : F) * delta))
      (cosF (angle - half_fov + 1 / 10000 + (k : F) * delta))).tex = none) :
    l.length = NUM_RAYS ∧ l.get? k = some RayEntry.noHit := by
  unfold ray_cast at h
  have hlen := rayCastAux_length h
  refine ⟨hlen, ?_⟩
  have hg := rayCastAux_get? h k hk
  rcases hcast : castRay sinF cosF map ox oy angle
      (angle - half_fov + 1 / 10000 + (k : F) * delta) sd with _ | e
  · rw [hcast] at hg
    have hne : l.get? k ≠ none := by
      intro hno
      rw [List.get?_eq_none] at hno
      omega
    exact absurd hg hne
  · rw [hcast] at hg
    simp only [castRay] at hcast
    by_cases hs0 : sinF (angle - half_fov + 1 / 10000 + (k : F) * delta) = 0
    · rw [if_pos hs0] at hcast
      exact absurd hcast (by simp)
    · rw [if_neg hs0] at hcast
      by_cases hc0 : cosF (angle - half_fov + 1 / 10000 + (k : F) * delta) = 0
      · rw [if_pos hc0] at hcast
        exact absurd hcast (by simp)
      · rw [if_neg hc0] at hcast
        simp only [Option.some.injEq] at hcast
        rw [hg, ← hcast]
        unfold finishRay
        rw [selectRay_none hhor hvert]

/-- Over the empty map every scan exhausts its fuel without a hit. -/
lemma horScan_empty (ox oy s c : F) :
    (horScan (fun _ => none) ox oy s c).tex = none := by
  simp only [horScan]
  rw [scanLoop_none_of (fun i hi => rfl)]

/-- Over the empty map the vertical scan finds no wall either. -/
lemma vertScan_empty (ox oy s c : F) :
    (vertScan (fun _ => none) ox oy s c).tex = none := by
  simp only [vertScan]
  rw [scanLoop_none_of (fun i hi => rfl)]

/-- With trig stubbed to `1`, every ray over the empty map records the
empty entry. -/
lemma castRay_empty_stub (b : ℚ) :
    castRay (fun _ => (1 : ℚ)) (fun _ => (1 : ℚ)) (fun _ => none)
      0 0 0 b 1 = some RayEntry.noHit := by
  simp only [castRay]
  rw [if_neg one_ne_zero, if_neg one_ne_zero]
  unfold finishRay
  rw [selectRay_none (horScan_empty 0 0 1 1) (vertScan_empty 0 0 1 1)]

/-- Witness for C4 at a concrete completed frame: constant trig stubs over
the empty map, where every ray misses and records the empty entry. -/
theorem C4_entry_per_ray_witness :
    (List.replicate NUM_RAYS (RayEntry.noHit (F := ℚ))).length = NUM_RAYS ∧
    (List.replicate NUM_RAYS (RayEntry.noHit (F := ℚ))).get? 0 =
      some RayEntry.noHit := by
  have hframe : ray_cast (fun _ => (1 : ℚ)) (fun _ => (1 : ℚ)) (fun _ => none)
      0 0 0 0 0 1 = some (List.replicate NUM_RAYS RayEntry.noHit) := by
    unfold ray_cast
    exact rayCastAux_const castRay_empty_stub 0 NUM_RAYS _
  exact C4_entry_per_ray hframe 0 (by norm_num [NUM_RAYS, WIDTH])
    (horScan_empty _ _ _ _) (vertScan_empty _ _ _ _)

/-- C5 (amended): whenever a ray records a hit, the recorded
fisheye-corrected depth equals the radial depth times
`cos(viewer angle - ray angle)`; at the center ray this factor is
`cos(0.0001)`, not `1`. -/
theorem C5_corrected_eq_radial_mul_cos {sinF cosF : F → F} {map : WorldMap}
    {ox oy angle ray_angle sd d : F}
    (hrad : castRayRadial sinF cosF map ox oy ray_angle = some d) :
    (castRay sinF cosF map ox oy angle ray_angle sd).bind hitDepth =
      some (d * cosF (angle - ray_angle)) := by
  simp only [castRayRadial] at hrad
  by_cases hs0 : sinF ray_angle = 0
  · rw [if_pos hs0] at hrad
    exact absurd hrad (by simp)
  · rw [if_neg hs0] at hrad
    by_cases hc0 : cosF ray_angle = 0
    · rw [if_pos hc0] at hrad
      exact absurd hrad (by simp)
    · rw [if_neg hc0] at hrad
      simp only [castRay]
      rw [if_neg hs0, if_neg hc0]
      unfold finishRay
      rcases hsel : selectRay (sinF ray_angle) (cosF ray_angle)
          (horScan map ox oy (sinF ray_angle) (cosF ray_angle))
          (vertScan map ox oy (sinF ray_angle) (cosF ray_angle))
        with _ | r
      · rw [hsel] at hrad
        exact absurd hrad (by simp)
      · rcases r with ⟨t, dep, o⟩
        rw [hsel] at hrad
        simp only [Option.map_some', Option.some.injEq] at hrad
        rw [← hrad]
        rfl

lemma pyInt_zero : pyInt (0 : F) = 0 := by
  rw [pyInt_of_nonneg le_rfl, Int.floor_zero]

/-- With trig stubbed to `1` over the all-wall map, both scans hit at the
first probe with equal depths, so the horizontal branch wins with radial
depth `1` and offset `1 - (1 % 1) = 1`. -/
lemma horScan_stub :
    horScan (fun _ => some 5) (0 : ℚ) 0 1 1 = ⟨some 5, 1, 1, 1⟩ := by
  simp only [horScan]
  rw [pyInt_zero, if_pos one_pos, if_pos one_pos]
  rw [show MAX_DEPTH = 29 + 1 by norm_num [MAX_DEPTH]]
  rw [scanLoop_found rfl]
  congr 1 <;> push_cast <;> norm_num

lemma vertScan_stub :
    vertScan (fun _ => some 5) (0 : ℚ) 0 1 1 = ⟨some 5, 1, 1, 1⟩ := by
  simp only [vertScan]
  rw [pyInt_zero, if_pos one_pos, if_pos one_pos]
  rw [show MAX_DEPTH = 29 + 1 by norm_num [MAX_DEPTH]]
  rw [scanLoop_found rfl]
  congr 1 <;> push_cast <;> norm_num

lemma castRayRadial_stub :
    castRayRadial (fun _ => (1 : ℚ)) (fun _ => (1 : ℚ)) (fun _ => some 5)
      0 0 0 = some 1 := by
  simp only [castRayRadial]
  rw [if_neg one_ne_zero, if_neg one_ne_zero]
  rw [horScan_stub, vertScan_stub]
  unfold selectRay
  norm_num

/-- Witness for C5's amended statement: a concrete rational ray with
constant trig stubs whose hit has radial depth `1`. -/
theorem C5_corrected_eq_radial_mul_cos_witness :
    (castRay (fun _ => (1 : ℚ)) (fun _ => (1 : ℚ)) (fun _ => some 5)
      0 0 0 0 1).bind hitDepth = some ((1 : ℚ) * 1) :=
  C5_corrected_eq_radial_mul_cos castRayRadial_stub

/-- C5 (counterexample): in the C1 scenario the center ray's radial depth
is `1 / (2 cos 0.0001)` while the recorded corrected depth is `1/2`, and
the two differ — the fisheye factor at the center ray is `cos(0.0001)`,
not `1`, because of the `0.0001` offset on the initial ray angle. -/
theorem C5_center_not_radial_cex :
    castRayRadial Real.sin Real.cos (getMap (grid3 15)) (3 / 2) (3 / 2)
      (1 / 10000) = some (1 / (2 * Real.cos (1 / 10000))) ∧
    (castRay Real.sin Real.cos (getMap (grid3 15)) (3 / 2) (3 / 2) 0
      (1 / 10000) (800 / Real.tan (Real.pi / 3 / 2))).bind hitDepth =
      some (1 / 2) ∧
    (1 : ℝ) / 2 ≠ 1 / (2 * Real.cos (1 / 10000)) := by
  have hs := sin_theta_pos
  have hc := cos_theta_pos
  have hw15 : (15 : ℕ) ≠ 0 := by norm_num
  refine ⟨?_, ?_, ?_⟩
  · simp only [castRayRadial]
    rw [if_neg hs.ne', if_neg hc.ne']
    rw [selectRay_vert_only center_hor (by rw [center_vert hw15])]
    rw [center_vert hw15]
    simp only [Option.map_some', Option.some.injEq]
    push_cast
    rw [div_eq_div_iff hc.ne'
      ((by positivity : (0 : ℝ) < 2 * Real.cos (1 / 10000)).ne')]
    ring
  · rw [castRay_center hw15]
    rfl
  · intro heq
    have hlt : Real.cos (1 / 10000) < 1 := by
      nlinarith [Real.sin_sq_add_cos_sq (1 / 10000), Real.cos_le_one (1 / 10000),
        sin_theta_pos]
    rw [div_eq_div_iff (two_ne_zero)
      ((by positivity : (0 : ℝ) < 2 * Real.cos (1 / 10000)).ne')] at heq
    nlinarith

/-! ### Claims C2 and C6: collision invariant and fog -/

/-- C2: for every sequence of movement displacements, starting from a
position whose truncated coordinates are not a wall tile, the viewer's
truncated position is never a wall tile afterwards.  The per-axis
acceptance (the y-check reading the already-updated x) is
`check_wall_collision`; quantifying over all move lists also covers every
prefix, i.e. the state "after each call". -/
theorem C2_collision_invariant {map : WorldMap} (moves : List (F × F))
    {x y : F} (h : map (pyInt x, pyInt y) = none) :
    map (pyInt (runMoves map moves (x, y)).1,
      pyInt (runMoves map moves (x, y)).2) = none :=
  runMoves_free moves h

/-- Witness for C2: two concrete moves in a world with one wall. -/
theorem C2_collision_invariant_witness :
    wallAt55 (pyInt (runMoves wallAt55 [(3, 4), (-10, 2)] ((0 : ℚ), 0)).1,
      pyInt (runMoves wallAt55 [(3, 4), (-10, 2)] ((0 : ℚ), 0)).2) = none :=
  C2_collision_invariant [(3, 4), (-10, 2)]
    (by rw [pyInt_zero]; rfl)

/-- C6: a wall column at depth at most `FOG_START` gets no fog operation;
at depth at least `FOG_END` the fog factor is fully opaque (`1`); strictly
in between, the factor is the linear interpolation
`(depth - FOG_START) / (FOG_END - FOG_START)`, which lies in `[0, 1]`. -/
theorem C6_fog (d : F) :
    (d ≤ (FOG_START : F) → fogFactor d = none) ∧
    ((FOG_END : F) ≤ d → fogFactor d = some 1) ∧
    ((FOG_START : F) < d → d < (FOG_END : F) →
      fogFactor d =
        some ((d - (FOG_START : F)) / ((FOG_END : F) - (FOG_START : F))) ∧
      0 ≤ (d - (FOG_START : F)) / ((FOG_END : F) - (FOG_START : F)) ∧
      (d - (FOG_START : F)) / ((FOG_END : F) - (FOG_START : F)) ≤ 1) := by
  have hfs : ((FOG_START : ℕ) : F) = 20 := by norm_num [FOG_START]
  have hfe : ((FOG_END : ℕ) : F) = 30 := by norm_num [FOG_END, MAX_DEPTH]
  refine ⟨?_, ?_, ?_⟩
  · intro hd
    unfold fogFactor
    rw [if_neg (not_lt.mpr hd)]
  · intro hd
    rw [hfe] at hd
    unfold fogFactor
    rw [if_pos (by rw [hfs]; linarith)]
    congr 1
    apply min_eq_left
    rw [hfs, hfe, le_div_iff₀ (by norm_num)]
    linarith
  · intro h1 h2
    rw [hfs] at h1
    rw [hfe] at h2
    unfold fogFactor
    rw [if_pos (by rw [hfs]; linarith)]
    rw [hfs, hfe]
    refine ⟨?_, ?_, ?_⟩
    · congr 1
      apply min_eq_right
      rw [div_le_one (by norm_num)]
      linarith
    · apply div_nonneg <;> linarith
    · rw [div_le_one (by norm_num)]
      linarith

/-- Witness for C6 at depths 10 (before fog), 35 (fully opaque) and 25
(interpolated). -/
theorem C6_fog_witness :
    fogFactor (10 : ℚ) = none ∧ fogFactor (35 : ℚ) = some 1 ∧
    fogFactor (25 : ℚ) =
      some (((25 : ℚ) - (FOG_START : ℚ)) /
        ((FOG_END : ℚ) - (FOG_START : ℚ))) :=
  ⟨(C6_fog 10).1 (by norm_num [FOG_START]),
   (C6_fog 35).2.1 (by norm_num [FOG_END, MAX_DEPTH]),
   ((C6_fog 25).2.2 (by norm_num [FOG_START])
     (by norm_num [FOG_END, MAX_DEPTH])).1⟩

/-! ### Claim C7: texture offsets -/

/-- C7 (amended): the fractional texture-column offset of every recorded
wall hit lies in the closed interval `[0, 1]`.  (The half-open `[0, 1)` of
the original claim fails: the `1 - (x % 1)` branches yield exactly `1`
when the hit coordinate is exactly on a gridline.) -/
theorem C7_offset_in_unit {sinF cosF : F → F} {map : WorldMap}
    {ox oy angle ray_angle sd o : F}
    (h : (castRay sinF cosF map ox oy angle ray_angle sd).bind hitOffset =
      some o) :
    0 ≤ o ∧ o ≤ 1 := by
  simp only [castRay] at h
  by_cases hs0 : sinF ray_angle = 0
  · rw [if_pos hs0] at h
    exact absurd h (by simp)
  · rw [if_neg hs0] at h
    by_cases hc0 : cosF ray_angle = 0
    · rw [if_pos hc0] at h
      exact absurd h (by simp)
    · rw [if_neg hc0] at h
      unfold finishRay at h
      rcases hsel : selectRay (sinF ray_angle) (cosF ray_angle)
          (horScan map ox oy (sinF ray_angle) (cosF ray_angle))
          (vertScan map ox oy (sinF ray_angle) (cosF ray_angle))
        with _ | r
      · rw [hsel] at h
        exact absurd h (by simp [hitOffset])
      · rcases r with ⟨t, dep, off⟩
        rw [hsel] at h
        have h2 : some off = some o := h
        obtain rfl : off = o := Option.some.inj h2
        exact selectRay_offset_mem hsel

/-- Both scans found a wall and the vertical hit is not strictly nearer:
the horizontal branch is selected. -/
lemma selectRay_both_hor {s c : F} {hor vert : ScanState F} {tv th : ℕ}
    (hh : hor.tex = some th) (hv : vert.tex = some tv)
    (hd : ¬ vert.depth < hor.depth) :
    selectRay s c hor vert =
      some (th, hor.depth,
        if 0 < s then 1 - pyMod1 hor.x else pyMod1 hor.x) := by
  unfold selectRay
  rw [hh, hv]
  exact if_neg hd

/-- Witness for C7's amended bound at the rational stub ray, whose offset
is exactly the boundary value `1`. -/
theorem C7_offset_in_unit_witness :
    (0 : ℚ) ≤ 1 ∧ (1 : ℚ) ≤ 1 := by
  have hoff : (castRay (fun _ => (1 : ℚ)) (fun _ => (1 : ℚ))
      (fun _ => some 5) 0 0 0 0 1).bind hitOffset = some 1 := by
    simp only [castRay]
    rw [if_neg one_ne_zero, if_neg one_ne_zero]
    unfold finishRay
    rw [selectRay_both_hor
      (show (horScan (fun _ => some 5) (0 : ℚ) 0 1 1).tex = some 5 by
        rw [horScan_stub])
      (show (vertScan (fun _ => some 5) (0 : ℚ) 0 1 1).tex = some 5 by
        rw [vertScan_stub])
      (by rw [horScan_stub, vertScan_stub]; exact lt_irrefl 1)]
    rw [if_pos one_pos]
    unfold pyMod1
    rw [horScan_stub, Int.floor_one]
    rw [show (1 : ℚ) - (1 - ((1 : ℤ) : ℚ)) = 1 by push_cast; ring]
    rfl
  exact C7_offset_in_unit hoff

lemma sin_5pi4 : Real.sin (5 * Real.pi / 4) = -(Real.sqrt 2 / 2) := by
  rw [show (5 : ℝ) * Real.pi / 4 = Real.pi + Real.pi / 4 by ring]
  rw [Real.sin_add, Real.sin_pi, Real.cos_pi, Real.sin_pi_div_four]
  ring

lemma cos_5pi4 : Real.cos (5 * Real.pi / 4) = -(Real.sqrt 2 / 2) := by
  rw [show (5 : ℝ) * Real.pi / 4 = Real.pi + Real.pi / 4 by ring]
  rw [Real.cos_add, Real.sin_pi, Real.cos_pi, Real.cos_pi_div_four]
  ring

lemma neg_sqrt2_half_neg : -(Real.sqrt 2 / 2) < 0 := by
  have h2 : (0 : ℝ) < Real.sqrt 2 := Real.sqrt_pos.mpr (by norm_num)
  linarith

lemma wallAt02_of_ne {a b : ℤ} (hb : b ≠ 2) : wallAt02 (a, b) = none := by
  unfold wallAt02
  rw [if_neg (fun hEq => hb (congrArg Prod.snd hEq))]

lemma pyInt_oy_c7 : pyInt ((5 : ℝ) / 2 + 1 / 1000000) = 2 := by
  rw [pyInt_of_nonneg (by norm_num), Int.floor_eq_iff]
  norm_num

/-- In the C7 scenario the horizontal scan never meets the single wall at
`(0, 2)`: every horizontal crossing has `y < 2` (the `1e-6` nudge puts the
first crossing in row 1 and the scan walks down-left). -/
lemma c7_hor_tex :
    (horScan wallAt02 ((3 : ℝ) / 2) (5 / 2 + 1 / 1000000)
      (-(Real.sqrt 2 / 2)) (-(Real.sqrt 2 / 2))).tex = none := by
  have hs := neg_sqrt2_half_neg
  simp only [horScan]
  rw [pyInt_oy_c7]
  rw [if_neg (not_lt.mpr hs.le), if_neg (not_lt.mpr hs.le)]
  rw [scanLoop_none_of]
  intro i hi
  apply wallAt02_of_ne
  have hi0 : (0 : ℝ) ≤ (i : ℝ) := Nat.cast_nonneg i
  have hlt : ((2 : ℤ) : ℝ) - 1 / 1000000 + (i : ℝ) * (-1) < ((2 : ℤ) : ℝ) := by
    push_cast
    linarith
  have h2 := pyInt_lt_of_lt (x := ((2 : ℤ) : ℝ) - 1 / 1000000 + (i : ℝ) * (-1))
    (n := 2) (by norm_num) (by push_cast at hlt ⊢; linarith)
  omega

/-- In the C7 scenario the vertical scan hits the wall `(0, 2)` at its
very first crossing `x = 1 - 1e-6`, whose `y`-coordinate is exactly `2`. -/
lemma c7_vert :
    vertScan wallAt02 ((3 : ℝ) / 2) (5 / 2 + 1 / 1000000)
      (-(Real.sqrt 2 / 2)) (-(Real.sqrt 2 / 2)) =
      ⟨some 7, ((1 : ℤ) : ℝ) - 1 / 1000000,
        5 / 2 + 1 / 1000000 + (((1 : ℤ) : ℝ) - 1 / 1000000 - 3 / 2) /
          (-(Real.sqrt 2 / 2)) * (-(Real.sqrt 2 / 2)),
        (((1 : ℤ) : ℝ) - 1 / 1000000 - 3 / 2) / (-(Real.sqrt 2 / 2))⟩ := by
  have hc := neg_sqrt2_half_neg
  simp only [vertScan]
  rw [pyInt_three_halves]
  rw [if_neg (not_lt.mpr hc.le), if_neg (not_lt.mpr hc.le)]
  rw [show MAX_DEPTH = 29 + 1 by norm_num [MAX_DEPTH]]
  apply scanLoop_found
  have hx : pyInt (((1 : ℤ) : ℝ) - 1 / 1000000) = 0 := by
    rw [pyInt_of_nonneg (by push_cast; norm_num), Int.floor_eq_iff]
    push_cast
    norm_num
  have hy : (5 : ℝ) / 2 + 1 / 1000000 + (((1 : ℤ) : ℝ) - 1 / 1000000 - 3 / 2) /
      (-(Real.sqrt 2 / 2)) * (-(Real.sqrt 2 / 2)) = ((2 : ℤ) : ℝ) := by
    rw [div_mul_cancel₀ _ hc.ne]
    push_cast
    norm_num
  rw [hx, hy, pyInt_intCast]
  unfold wallAt02
  rw [if_pos rfl]

/-- C7 (counterexample): viewer at `(1.5, 2.5 + 1e-6)` with both viewer
and ray angle `5 pi / 4` in the world with one wall at `(0, 2)`: the
vertical hit lands exactly on the gridline `y = 2`, `y_vert % 1` is `0`,
and the recorded offset is `1 - 0 = 1`, which is not in `[0, 1)`. -/
theorem C7_offset_one_cex :
    (castRay Real.sin Real.cos wallAt02 ((3 : ℝ) / 2) (5 / 2 + 1 / 1000000)
      (5 * Real.pi / 4) (5 * Real.pi / 4)
      (800 / Real.tan (Real.pi / 3 / 2))).bind hitOffset = some 1 ∧
    (1 : ℝ) ∉ Set.Ico (0 : ℝ) 1 := by
  have hc := neg_sqrt2_half_neg
  refine ⟨?_, by simp⟩
  simp only [castRay]
  rw [sin_5pi4, cos_5pi4]
  rw [if_neg hc.ne, if_neg hc.ne]
  unfold finishRay
  rw [selectRay_vert_only c7_hor_tex (by rw [c7_vert])]
  rw [if_neg (not_lt.mpr hc.le)]
  rw [c7_vert]
  have hy : (5 : ℝ) / 2 + 1 / 1000000 + (((1 : ℤ) : ℝ) - 1 / 1000000 - 3 / 2) /
      (-(Real.sqrt 2 / 2)) * (-(Real.sqrt 2 / 2)) = ((2 : ℤ) : ℝ) := by
    rw [div_mul_cancel₀ _ hc.ne]
    push_cast
    norm_num
  have hoff : (1 : ℝ) - pyMod1 ((5 : ℝ) / 2 + 1 / 1000000 +
      (((1 : ℤ) : ℝ) - 1 / 1000000 - 3 / 2) /
      (-(Real.sqrt 2 / 2)) * (-(Real.sqrt 2 / 2))) = 1 := by
    rw [pyMod1_eq_fract, hy, Int.fract_intCast]
    norm_num
  rw [hoff]
  rfl

/-! ### Claims C8, C9, C10: movement rotation and sprite culling -/

/-- C9: the angle written by `movement` is the previous angle plus the
rotation delta, normalized by `tau` — independent of `delta_time` — and
the rotation delta is exactly `-PLAYER_ROT_SPEED`, `0`, or
`+PLAYER_ROT_SPEED` (both keys cancel). -/
theorem C9_rotation_independent_of_dt (sinF cosF : F → F) (map : WorldMap)
    (dt1 dt2 : F) (ks : Keys) (tau : F) (st : F × F × F) :
    (movement sinF cosF map dt1 ks tau st).2.2 =
      pyMod (st.2.2 + rotationDelta ks) tau ∧
    (movement sinF cosF map dt1 ks tau st).2.2 =
      (movement sinF cosF map dt2 ks tau st).2.2 ∧
    ((rotationDelta ks : F) = -(PLAYER_ROT_SPEED : F) ∨
      (rotationDelta ks : F) = 0 ∨
      (rotationDelta ks : F) = (PLAYER_ROT_SPEED : F)) := by
  refine ⟨rfl, rfl, ?_⟩
  rcases ks with ⟨w, s, a, d, l, r⟩
  cases l <;> cases r
  · exact Or.inr (Or.inl (by simp [rotationDelta]))
  · exact Or.inr (Or.inr (by simp [rotationDelta]))
  · exact Or.inl (by simp [rotationDelta])
  · exact Or.inr (Or.inl (by simp [rotationDelta]))

/-- The projected (fisheye-normalized) sprite distance computed by
`get_sprite` is the straight-line distance times `cos` of the angular
delta. -/
lemma spriteCalc_norm (atan2F : F → F → F) (cosF : F → F)
    (hypotF : F → F → F) (piF tauF delta_angle px py pangle sx sy : F) :
    (spriteCalc atan2F cosF hypotF piF tauF delta_angle px py pangle
      sx sy).2.2.2 =
      hypotF (sx - px) (sy - py) *
        cosF (spriteCalc atan2F cosF hypotF piF tauF delta_angle px py pangle
          sx sy).1 := rfl

/-- `get_sprite` appends nothing when the normalized distance is not
strictly greater than `1`. -/
lemma get_sprite_none_of_norm_le {atan2F : F → F → F} {cosF : F → F}
    {hypotF : F → F → F} {piF tauF delta_angle px py pangle sx sy : F}
    {image_width : ℕ} {sd sprite_scale ratioWH height_shift : F}
    (h : (spriteCalc atan2F cosF hypotF piF tauF delta_angle px py pangle
      sx sy).2.2.2 ≤ 1) :
    get_sprite atan2F cosF hypotF piF tauF delta_angle px py pangle sx sy
      image_width sd sprite_scale ratioWH height_shift = none := by
  simp only [get_sprite]
  rw [if_neg]
  rintro ⟨-, -, h3⟩
  exact absurd h3 (not_lt.mpr h)

/-- C8: a sprite whose normalized distance is not strictly greater than
`1` — in particular a sprite exactly at the viewer's position, whose
distance `hypot(0, 0)` is `0` — contributes no draw item. -/
theorem C8_sprite_culled (atan2F : F → F → F) (cosF : F → F)
    (hypotF : F → F → F) (piF tauF delta_angle px py pangle sx sy : F)
    (image_width : ℕ) (sd sprite_scale ratioWH height_shift : F) :
    ((spriteCalc atan2F cosF hypotF piF tauF delta_angle px py pangle
        sx sy).2.2.2 ≤ 1 →
      get_sprite atan2F cosF hypotF piF tauF delta_angle px py pangle sx sy
        image_width sd sprite_scale ratioWH height_shift = none) ∧
    (sx = px → sy = py → hypotF 0 0 = 0 →
      get_sprite atan2F cosF hypotF piF tauF delta_angle px py pangle sx sy
        image_width sd sprite_scale ratioWH height_shift = none) := by
  constructor
  · exact get_sprite_none_of_norm_le
  · intro hx hy hh
    apply get_sprite_none_of_norm_le
    rw [spriteCalc_norm, hx, hy, sub_self, sub_self, hh, zero_mul]
    norm_num

/-- Witness for C8: constant collaborator stubs with the sprite at the
viewer's own position; both clauses yield no draw item. -/
theorem C8_sprite_culled_witness :
    get_sprite (fun _ _ => (0 : ℚ)) (fun _ => 1) (fun _ _ => 0) 3 6 1
      0 0 0 0 0 10 1 1 1 0 = none ∧
    get_sprite (fun _ _ => (0 : ℚ)) (fun _ => 1) (fun _ _ => 0) 3 6 1
      0 0 0 0 0 10 1 1 1 0 = none :=
  ⟨(C8_sprite_culled (fun _ _ => (0 : ℚ)) (fun _ => 1) (fun _ _ => 0) 3 6 1
      0 0 0 0 0 10 1 1 1 0).1 (by norm_num [spriteCalc]),
   (C8_sprite_culled (fun _ _ => (0 : ℚ)) (fun _ => 1) (fun _ _ => 0) 3 6 1
      0 0 0 0 0 10 1 1 1 0).2 rfl rfl rfl⟩

/-- C10: a draw item is produced iff the screen column lies strictly
between `-IMAGE_HALF_WIDTH` and `WIDTH + IMAGE_HALF_WIDTH` and the
normalized distance is strictly greater than `1`, where
`IMAGE_HALF_WIDTH = image_width // 2` is a constant of the source image,
independent of the sprite's distance. -/
theorem C10_visibility_iff (atan2F : F → F → F) (cosF : F → F)
    (hypotF : F → F → F) (piF tauF delta_angle px py pangle sx sy : F)
    (image_width : ℕ) (sd sprite_scale ratioWH height_shift : F) :
    (get_sprite atan2F cosF hypotF piF tauF delta_angle px py pangle sx sy
        image_width sd sprite_scale ratioWH height_shift).isSome ↔
      (-(((image_width / 2 : ℕ)) : F) <
        (spriteCalc atan2F cosF hypotF piF tauF delta_angle px py pangle
          sx sy).2.1 ∧
       (spriteCalc atan2F cosF hypotF piF tauF delta_angle px py pangle
          sx sy).2.1 < (WIDTH : F) + ((image_width / 2 : ℕ) : F) ∧
       1 < (spriteCalc atan2F cosF hypotF piF tauF delta_angle px py pangle
          sx sy).2.2.2) := by
  simp only [get_sprite]
  split_ifs with h
  · exact iff_of_true rfl h
  · exact iff_of_false (by simp) h

end Doom
